import Mathlib

/-!
Shallow embedding of the core of the chess engine (bitboard state model,
attack queries, move application, move generation, Zobrist hashing, the
generic transposition table and the minimax search), translated from the
C sources in src/lib.  Machine 64-bit words are modelled as `Nat` with an
explicit truncation `% 2^64`; C `int` values that can be negative
(players, square deltas) are modelled as `Int`.
-/

set_option maxRecDepth 10000

namespace Chess

/-- Truncation of a `Nat` to 64 bits, the semantics of C `uint64_t` arithmetic. -/
def u64 (x : Nat) : Nat := x % 18446744073709551616

/-- All 64 bits set, used to model the C complement `~mask` on `uint64_t`. -/
def M64 : Nat := 18446744073709551615

/-- Complement-and: models the C idiom `bb & ~mask` on `uint64_t`. -/
def andn (bb mask : Nat) : Nat := bb &&& (M64 ^^^ mask)

/-- File mask from chess_state.h: bits whose file is not file a. -/
def NOT_A_FILE : Nat := 0xfefefefefefefefe

/-- File mask from chess_state.h: bits whose file is not file h. -/
def NOT_H_FILE : Nat := 0x7f7f7f7f7f7f7f7f

/-- File mask from chess_state.h (`NOT_GH_FILE`): files a..f only. -/
def NOT_GH_FILE : Nat := 0x3f3f3f3f3f3f3f3f

/-- File mask from chess_moves.h: bits whose file is not a nor b. -/
def NOT_AB_FILE : Nat := 0xfcfcfcfcfcfcfcfc

/-- Portable bit-scan-forward loop from chess_game_dynamics.c (the non-GNUC
fallback): the lowest index `i < 64` whose bit is set, or 64 when none is. -/
def bitScan (bb : Nat) : Nat :=
  ((List.range 64).find? (fun i => bb.testBit i)).getD 64

/-- Indices of the set bits of a 64-bit board in ascending order; this is the
order in which the C `while (bb) { i = ctz(bb); bb &= bb - 1; }` loops visit
the bits. -/
def bitsAsc (bb : Nat) : List Nat :=
  (List.range 64).filter (fun i => bb.testBit i)

/-- The bitboard game state, translated field for field from
`bitboard_state_t` in chess_state.h.  The 64-bit boards and the `uint8_t`
fields are `Nat`; `current_player` is the C `int` (1 = White, -1 = Black). -/
structure bitboard_state_t where
  white_pawns : Nat
  white_knights : Nat
  white_bishops : Nat
  white_rooks : Nat
  white_queens : Nat
  white_kings : Nat
  black_pawns : Nat
  black_knights : Nat
  black_bishops : Nat
  black_rooks : Nat
  black_queens : Nat
  black_kings : Nat
  castling_rights : Nat
  en_passant : Nat
  halfmove_clock : Nat
  fullmove_number : Nat
  current_player : Int
  deriving DecidableEq

/-- A move, translated from `chess_move_t` in chess_moves.h.  The C fields
`from` and `to` are named `fromSq` and `toSq` because `from` is reserved. -/
structure chess_move_t where
  fromSq : Nat
  toSq : Nat
  promotion : Nat
  is_castling : Nat
  is_en_passant : Nat
  deriving DecidableEq

/-- Union of the six White piece boards (`compute_white_occ`). -/
def compute_white_occ (s : bitboard_state_t) : Nat :=
  s.white_pawns ||| s.white_knights ||| s.white_bishops |||
  s.white_rooks ||| s.white_queens ||| s.white_kings

/-- Union of the six Black piece boards (`compute_black_occ`). -/
def compute_black_occ (s : bitboard_state_t) : Nat :=
  s.black_pawns ||| s.black_knights ||| s.black_bishops |||
  s.black_rooks ||| s.black_queens ||| s.black_kings

/-- Union of all twelve piece boards (`compute_all_occ`). -/
def compute_all_occ (s : bitboard_state_t) : Nat :=
  compute_white_occ s ||| compute_black_occ s

/-- Piece-board accessor in the fixed order the C code scans boards:
0..5 White pawns/knights/bishops/rooks/queens/kings, 6..11 the Black ones. -/
def getBB (s : bitboard_state_t) : Nat → Nat
  | 0 => s.white_pawns
  | 1 => s.white_knights
  | 2 => s.white_bishops
  | 3 => s.white_rooks
  | 4 => s.white_queens
  | 5 => s.white_kings
  | 6 => s.black_pawns
  | 7 => s.black_knights
  | 8 => s.black_bishops
  | 9 => s.black_rooks
  | 10 => s.black_queens
  | 11 => s.black_kings
  | _ => 0

/-- Piece-board writer matching `getBB`; indices outside 0..11 change nothing. -/
def setBB (i : Nat) (v : Nat) (s : bitboard_state_t) : bitboard_state_t :=
  match i with
  | 0 => { s with white_pawns := v }
  | 1 => { s with white_knights := v }
  | 2 => { s with white_bishops := v }
  | 3 => { s with white_rooks := v }
  | 4 => { s with white_queens := v }
  | 5 => { s with white_kings := v }
  | 6 => { s with black_pawns := v }
  | 7 => { s with black_knights := v }
  | 8 => { s with black_bishops := v }
  | 9 => { s with black_rooks := v }
  | 10 => { s with black_queens := v }
  | 11 => { s with black_kings := v }
  | _ => s

/-- Index (0-63) of the king of `player`, or -1 when the king board is empty
(`get_king_position`). -/
def get_king_position (s : bitboard_state_t) (player : Int) : Int :=
  let king_bb := if player = 1 then s.white_kings else s.black_kings
  if king_bb = 0 then -1 else (bitScan king_bb : Int)

/-- Removal of the piece of `player` sitting on `from_square`
(`remove_piece_from_bitboards`): the first board of that colour that holds
the square, in the C scan order, loses the bit. -/
def remove_piece_from_bitboards (s : bitboard_state_t) (from_square : Nat)
    (player : Int) : bitboard_state_t :=
  let mask := u64 (1 <<< from_square)
  let idxs := if player = 1 then [0, 1, 2, 3, 4, 5] else [6, 7, 8, 9, 10, 11]
  match idxs.find? (fun i => getBB s i &&& mask ≠ 0) with
  | some i => setBB i (andn (getBB s i) mask) s
  | none => s

/-- Copy of the state with the piece on `move.fromSq` removed
(`simulate_position_without_piece`, ignoring the out-of-memory path). -/
def simulate_position_without_piece (s : bitboard_state_t)
    (mv : chess_move_t) : bitboard_state_t :=
  remove_piece_from_bitboards s mv.fromSq s.current_player

/-- Pawn-attack test translated literally from `is_attacked_by_pawn`:
for a White attacker the code intersects `(mask << 7)` and `(mask << 9)`
with the White pawn board (and the file masks); for a Black attacker it
uses `(mask >> 7)` and `(mask >> 9)`. -/
def is_attacked_by_pawn (s : bitboard_state_t) (square : Nat)
    (attacker_player : Int) : Bool :=
  let attacker_pawns :=
    if attacker_player = 1 then s.white_pawns else s.black_pawns
  let mask := u64 (1 <<< square)
  if attacker_player = 1 then
    if u64 (mask <<< 7) &&& attacker_pawns &&& NOT_H_FILE ≠ 0 then true
    else if u64 (mask <<< 9) &&& attacker_pawns &&& NOT_A_FILE ≠ 0 then true
    else false
  else
    if (mask >>> 7) &&& attacker_pawns &&& NOT_A_FILE ≠ 0 then true
    else if (mask >>> 9) &&& attacker_pawns &&& NOT_H_FILE ≠ 0 then true
    else false

/-- Knight-attack test (`is_attacked_by_knight`): build the mask of the
eight origins a knight could hop to `square` from, guarded exactly as the
C code guards each shift, then intersect with the attacker knight board. -/
def is_attacked_by_knight (s : bitboard_state_t) (square : Nat)
    (attacker_player : Int) : Bool :=
  let attacker_knights :=
    if attacker_player = 1 then s.white_knights else s.black_knights
  let sq_mask := u64 (1 <<< square)
  let k0 := 0
  let k1 := if u64 (sq_mask <<< 6) &&& NOT_GH_FILE ≠ 0 then
              k0 ||| u64 (sq_mask <<< 6) else k0
  let k2 := if (sq_mask >>> 10) &&& NOT_GH_FILE ≠ 0 then
              k1 ||| (sq_mask >>> 10) else k1
  let k3 := if u64 (sq_mask <<< 10) &&& NOT_AB_FILE ≠ 0 then
              k2 ||| u64 (sq_mask <<< 10) else k2
  let k4 := if (sq_mask >>> 6) &&& NOT_AB_FILE ≠ 0 then
              k3 ||| (sq_mask >>> 6) else k3
  let k5 := if u64 (sq_mask <<< 15) &&& NOT_H_FILE ≠ 0 then
              k4 ||| u64 (sq_mask <<< 15) else k4
  let k6 := if (sq_mask >>> 17) &&& NOT_H_FILE ≠ 0 then
              k5 ||| (sq_mask >>> 17) else k5
  let k7 := if u64 (sq_mask <<< 17) &&& NOT_A_FILE ≠ 0 then
              k6 ||| u64 (sq_mask <<< 17) else k6
  let k8 := if (sq_mask >>> 15) &&& NOT_A_FILE ≠ 0 then
              k7 ||| (sq_mask >>> 15) else k7
  k8 &&& attacker_knights ≠ 0

/-- One step test of the wrap guard in `ray_moves`: given the direction
`delta` and the observed rank and file differences, decide whether the C
code breaks out of the walk. -/
def ray_wrap_break (delta row_diff col_diff : Int) : Bool :=
  (delta = 1 ∧ ¬(row_diff = 0 ∧ col_diff = 1)) ∨
  (delta = -1 ∧ ¬(row_diff = 0 ∧ col_diff = -1)) ∨
  (delta = 8 ∧ ¬(row_diff = 1 ∧ col_diff = 0)) ∨
  (delta = -8 ∧ ¬(row_diff = -1 ∧ col_diff = 0)) ∨
  (delta = 7 ∧ ¬(row_diff = 1 ∧ col_diff = -1)) ∨
  (delta = -7 ∧ ¬(row_diff = -1 ∧ col_diff = 1)) ∨
  (delta = 9 ∧ ¬(row_diff = 1 ∧ col_diff = 1)) ∨
  (delta = -9 ∧ ¬(row_diff = -1 ∧ col_diff = -1))

/-- The walking loop of `ray_moves`.  `fuel` bounds the iteration count (the
C loop takes at most 63 accepted steps); each step extends the result and
stops on board exit, wrap-around, or the first occupied square. -/
def ray_loop (occupancy : Nat) (delta : Int) :
    Nat → Nat → Nat → Nat
  | 0, _, acc => acc
  | fuel + 1, current_pos, acc =>
    let new_pos_i : Int := (current_pos : Int) + delta
    if new_pos_i < 0 ∨ new_pos_i > 63 then acc
    else
      let new_pos := new_pos_i.toNat
      let row_diff : Int := (new_pos / 8 : Nat) - (current_pos / 8 : Nat)
      let col_diff : Int := (new_pos % 8 : Nat) - (current_pos % 8 : Nat)
      if ray_wrap_break delta row_diff col_diff then acc
      else
        let new_bit := u64 (1 <<< new_pos)
        let acc := acc ||| new_bit
        if new_bit &&& occupancy ≠ 0 then acc
        else ray_loop occupancy delta fuel new_pos acc

/-- Sliding-ray mask from `ray_moves`: all squares visible from the single
set bit of `starting_bit` in direction `delta`, including the first occupied
square met.  A zero `starting_bit` yields 0 (the portable fallback path). -/
def ray_moves (starting_bit : Nat) (delta : Int) (occupancy : Nat) : Nat :=
  if starting_bit = 0 then 0
  else ray_loop occupancy delta 64 (bitScan starting_bit) 0

/-- Diagonal slider attack test (`is_attacked_by_bishop_or_queen`). -/
def is_attacked_by_bishop_or_queen (s : bitboard_state_t) (square : Nat)
    (attacker_player : Int) : Bool :=
  let sq_mask := u64 (1 <<< square)
  let attacker_bishops :=
    if attacker_player = 1 then s.white_bishops else s.black_bishops
  let attacker_queens :=
    if attacker_player = 1 then s.white_queens else s.black_queens
  let occupancy := compute_all_occ s
  let diag_up_right := ray_moves sq_mask 9 occupancy
  let diag_up_left := ray_moves sq_mask 7 occupancy
  let diag_dn_right := ray_moves sq_mask (-7) occupancy
  let diag_dn_left := ray_moves sq_mask (-9) occupancy
  if diag_up_right &&& (attacker_bishops ||| attacker_queens) ≠ 0 then true
  else if diag_up_left &&& (attacker_bishops ||| attacker_queens) ≠ 0 then true
  else if diag_dn_right &&& (attacker_bishops ||| attacker_queens) ≠ 0 then true
  else if diag_dn_left &&& (attacker_bishops ||| attacker_queens) ≠ 0 then true
  else false

/-- Orthogonal slider attack test (`is_attacked_by_rook_or_queen`). -/
def is_attacked_by_rook_or_queen (s : bitboard_state_t) (square : Nat)
    (attacker_player : Int) : Bool :=
  let sq_mask := u64 (1 <<< square)
  let attacker_rooks :=
    if attacker_player = 1 then s.white_rooks else s.black_rooks
  let attacker_queens :=
    if attacker_player = 1 then s.white_queens else s.black_queens
  let occupancy := compute_all_occ s
  let up_moves := ray_moves sq_mask 8 occupancy
  let down_moves := ray_moves sq_mask (-8) occupancy
  let right_moves := ray_moves sq_mask 1 occupancy
  let left_moves := ray_moves sq_mask (-1) occupancy
  if up_moves &&& (attacker_rooks ||| attacker_queens) ≠ 0 then true
  else if down_moves &&& (attacker_rooks ||| attacker_queens) ≠ 0 then true
  else if right_moves &&& (attacker_rooks ||| attacker_queens) ≠ 0 then true
  else if left_moves &&& (attacker_rooks ||| attacker_queens) ≠ 0 then true
  else false

/-- King-adjacency attack test (`is_attacked_by_king`): Chebyshev distance
at most one between `square` and the attacker king square. -/
def is_attacked_by_king (s : bitboard_state_t) (square : Nat)
    (attacker_player : Int) : Bool :=
  let attacker_king :=
    if attacker_player = 1 then s.white_kings else s.black_kings
  if attacker_king = 0 then false
  else
    let k_pos := bitScan attacker_king
    let king_row : Int := (k_pos / 8 : Nat)
    let king_col : Int := (k_pos % 8 : Nat)
    let sq_row : Int := (square / 8 : Nat)
    let sq_col : Int := (square % 8 : Nat)
    (king_row - sq_row).natAbs ≤ 1 ∧ (king_col - sq_col).natAbs ≤ 1

/-- Check test (`is_king_in_check`): locate the king of `player` and try the
five attack classes with attacker `-player`; a missing king means no check. -/
def is_king_in_check (s : bitboard_state_t) (player : Int) : Bool :=
  let king_pos := get_king_position s player
  if king_pos = -1 then false
  else
    let kp := king_pos.toNat
    let attacker := -player
    if is_attacked_by_pawn s kp attacker then true
    else if is_attacked_by_knight s kp attacker then true
    else if is_attacked_by_bishop_or_queen s kp attacker then true
    else if is_attacked_by_rook_or_queen s kp attacker then true
    else if is_attacked_by_king s kp attacker then true
    else false

/-- Pin test (`is_move_pinned`): remove the piece on `mv.fromSq` from a
scratch copy and ask whether the mover's king is then in check. -/
def is_move_pinned (s : bitboard_state_t) (mv : chess_move_t) : Bool :=
  let king_pos := get_king_position s s.current_player
  if king_pos = -1 then false
  else is_king_in_check (simulate_position_without_piece s mv) s.current_player

/-- Combined attack test (`is_square_attacked`): pawn, knight, diagonal,
orthogonal and king attacks in the C order. -/
def is_square_attacked (s : bitboard_state_t) (square : Nat)
    (attacker_player : Int) : Bool :=
  if is_attacked_by_pawn s square attacker_player then true
  else if is_attacked_by_knight s square attacker_player then true
  else if is_attacked_by_bishop_or_queen s square attacker_player then true
  else if is_attacked_by_rook_or_queen s square attacker_player then true
  else if is_attacked_by_king s square attacker_player then true
  else false

/-- Castling execution (`apply_castling`): move the king two squares and
relocate the rook; the anomalous no-king-on-from case changes nothing. -/
def apply_castling (s : bitboard_state_t) (mv : chess_move_t) :
    bitboard_state_t :=
  let from_mask := u64 (1 <<< mv.fromSq)
  let to_mask := u64 (1 <<< mv.toSq)
  let is_white_king := s.white_kings &&& from_mask ≠ 0
  let is_black_king := s.black_kings &&& from_mask ≠ 0
  let rookFromTo : Option (Nat × Nat) :=
    if is_white_king then
      if mv.fromSq = 4 ∧ mv.toSq = 6 then some (7, 5)
      else if mv.fromSq = 4 ∧ mv.toSq = 2 then some (0, 3)
      else none
    else if is_black_king then
      if mv.fromSq = 60 ∧ mv.toSq = 62 then some (63, 61)
      else if mv.fromSq = 60 ∧ mv.toSq = 58 then some (56, 59)
      else none
    else none
  if is_white_king then
    let s := { s with white_kings := andn s.white_kings from_mask ||| to_mask }
    match rookFromTo with
    | some (rf, rt) =>
      let rooks := andn s.white_rooks (u64 (1 <<< rf)) ||| u64 (1 <<< rt)
      { s with white_rooks := rooks }
    | none => s
  else if is_black_king then
    let s := { s with black_kings := andn s.black_kings from_mask ||| to_mask }
    match rookFromTo with
    | some (rf, rt) =>
      let rooks := andn s.black_rooks (u64 (1 <<< rf)) ||| u64 (1 <<< rt)
      { s with black_rooks := rooks }
    | none => s
  else s

/-- En-passant execution (`apply_en_passant`): move the capturing pawn and
remove the enemy pawn one rank behind the destination; the anomalous
no-pawn-on-from case changes nothing. -/
def apply_en_passant (s : bitboard_state_t) (mv : chess_move_t) :
    bitboard_state_t :=
  let from_mask := u64 (1 <<< mv.fromSq)
  let to_mask := u64 (1 <<< mv.toSq)
  let is_white_pawn := s.white_pawns &&& from_mask ≠ 0
  let is_black_pawn := s.black_pawns &&& from_mask ≠ 0
  if ¬is_white_pawn ∧ ¬is_black_pawn then s
  else if is_white_pawn then
    let s := { s with white_pawns := andn s.white_pawns from_mask ||| to_mask }
    let captured_mask := u64 (1 <<< (mv.toSq - 8))
    { s with black_pawns := andn s.black_pawns captured_mask }
  else
    let s := { s with black_pawns := andn s.black_pawns from_mask ||| to_mask }
    let captured_mask := u64 (1 <<< (mv.toSq + 8))
    { s with white_pawns := andn s.white_pawns captured_mask }

/-- Capture half of `apply_regular_move`: scan the six enemy boards in the C
order and clear the first one holding `to_mask`; return the updated state
and whether a piece was captured. -/
def do_capture (is_white : Bool) (to_mask : Nat) (s : bitboard_state_t) :
    bitboard_state_t × Bool :=
  let idxs := if is_white then [6, 7, 8, 9, 10, 11] else [0, 1, 2, 3, 4, 5]
  match idxs.find? (fun j => getBB s j &&& to_mask ≠ 0) with
  | some j => (setBB j (andn (getBB s j) to_mask) s, true)
  | none => (s, false)

/-- Scan of the twelve boards in the C order for the piece standing on the
origin square of a regular move. -/
def find_mover (s : bitboard_state_t) (from_mask : Nat) : Option Nat :=
  (List.range 12).find? (fun i => getBB s i &&& from_mask ≠ 0)

/-- Regular-move execution (`apply_regular_move`): identify the moving piece
by scanning the twelve boards in the C order, clear `from`, capture on `to`
if an enemy piece stands there, set `to`; the returned flag is true exactly
when a pawn moved or a capture occurred.  When no piece stands on `from`
the state is unchanged and the flag is false. -/
def apply_regular_move (s : bitboard_state_t) (mv : chess_move_t) :
    bitboard_state_t × Bool :=
  let from_mask := u64 (1 <<< mv.fromSq)
  let to_mask := u64 (1 <<< mv.toSq)
  match find_mover s from_mask with
  | none => (s, false)
  | some i =>
    let is_white : Bool := decide (i < 6)
    let was_pawn : Bool := decide (i = 0) || decide (i = 6)
    let s1 := setBB i (andn (getBB s i) from_mask) s
    let dc := do_capture is_white to_mask s1
    let s3 := setBB i (getBB dc.1 i ||| to_mask) dc.1
    (s3, was_pawn || dc.2)

/-- Promotion fix-up (`handle_promotion`): replace the pawn that just landed
on `to` by the promoted piece; tags other than 1, 2, 3 become a queen. -/
def handle_promotion (s : bitboard_state_t) (mv : chess_move_t) :
    bitboard_state_t :=
  let to_mask := u64 (1 <<< mv.toSq)
  let is_white_pawn := s.white_pawns &&& to_mask ≠ 0
  let is_black_pawn := s.black_pawns &&& to_mask ≠ 0
  if ¬is_white_pawn ∧ ¬is_black_pawn then s
  else
    let s :=
      if is_white_pawn then { s with white_pawns := andn s.white_pawns to_mask }
      else { s with black_pawns := andn s.black_pawns to_mask }
    match mv.promotion with
    | 1 => if is_white_pawn then { s with white_knights := s.white_knights ||| to_mask }
           else { s with black_knights := s.black_knights ||| to_mask }
    | 2 => if is_white_pawn then { s with white_bishops := s.white_bishops ||| to_mask }
           else { s with black_bishops := s.black_bishops ||| to_mask }
    | 3 => if is_white_pawn then { s with white_rooks := s.white_rooks ||| to_mask }
           else { s with black_rooks := s.black_rooks ||| to_mask }
    | _ => if is_white_pawn then { s with white_queens := s.white_queens ||| to_mask }
           else { s with black_queens := s.black_queens ||| to_mask }

/-- New castling-rights mask computed by `update_castling_rights`.  Note that
the C function runs on the already-mutated position, so every `from`-square
test reads the post-move boards. -/
def new_castling_rights (s : bitboard_state_t) (mv : chess_move_t) : Nat :=
  let from_mask := u64 (1 <<< mv.fromSq)
  let to_mask := u64 (1 <<< mv.toSq)
  let rights := s.castling_rights
  let rights := if s.white_kings &&& from_mask ≠ 0 then andn rights 0x3 else rights
  let rights := if s.black_kings &&& from_mask ≠ 0 then andn rights 0xC else rights
  let is_white_rook_from := s.white_rooks &&& from_mask ≠ 0
  let is_white_rook_to := s.white_rooks &&& to_mask ≠ 0
  let is_black_rook_from := s.black_rooks &&& from_mask ≠ 0
  let is_black_rook_to := s.black_rooks &&& to_mask ≠ 0
  let rights := if is_white_rook_from ∧ mv.fromSq = 0 then andn rights 0x2 else rights
  let rights := if is_white_rook_from ∧ mv.fromSq = 7 then andn rights 0x1 else rights
  let rights := if is_black_rook_from ∧ mv.toSq = 0 ∧ is_white_rook_to then andn rights 0x2 else rights
  let rights := if is_black_rook_from ∧ mv.toSq = 7 ∧ is_white_rook_to then andn rights 0x1 else rights
  let rights := if is_black_rook_from ∧ mv.fromSq = 56 then andn rights 0x8 else rights
  let rights := if is_black_rook_from ∧ mv.fromSq = 63 then andn rights 0x4 else rights
  let rights := if is_white_rook_from ∧ mv.toSq = 56 ∧ is_black_rook_to then andn rights 0x8 else rights
  let rights := if is_white_rook_from ∧ mv.toSq = 63 ∧ is_black_rook_to then andn rights 0x4 else rights
  rights

/-- Castling-rights update step (`update_castling_rights`). -/
def update_castling_rights (s : bitboard_state_t) (mv : chess_move_t) :
    bitboard_state_t :=
  { s with castling_rights := new_castling_rights s mv }

/-- New en-passant square computed by `update_en_passant`: 255 unless a pawn
(read from the already-mutated position) stands on `from` and the move is a
double push, in which case the skipped square. -/
def new_en_passant (s : bitboard_state_t) (mv : chess_move_t) : Nat :=
  let from_mask := u64 (1 <<< mv.fromSq)
  let is_white_pawn := s.white_pawns &&& from_mask ≠ 0
  let is_black_pawn := s.black_pawns &&& from_mask ≠ 0
  if ¬is_white_pawn ∧ ¬is_black_pawn then 255
  else
    let diff : Int := (mv.toSq : Int) - (mv.fromSq : Int)
    if is_white_pawn ∧ diff = 16 then (mv.fromSq + 8) % 256
    else if is_black_pawn ∧ diff = -16 then (mv.fromSq - 8) % 256
    else 255

/-- En-passant update step (`update_en_passant`). -/
def update_en_passant (s : bitboard_state_t) (mv : chess_move_t) :
    bitboard_state_t :=
  { s with en_passant := new_en_passant s mv }

/-- Clock update step (`update_move_counters`): the two counters are C
`uint8_t` fields, so the increments wrap modulo 256. -/
def update_move_counters (s : bitboard_state_t)
    (was_capture_or_pawn_move : Bool) : bitboard_state_t :=
  let s :=
    if was_capture_or_pawn_move then { s with halfmove_clock := 0 }
    else { s with halfmove_clock := (s.halfmove_clock + 1) % 256 }
  if s.current_player = -1 then
    { s with fullmove_number := (s.fullmove_number + 1) % 256 }
  else s

/-- Transit squares of a castle (`get_castling_squares`): the squares the C
code collects for the attack scan — one square for a kingside castle, the
b- and d-file squares for a queenside castle, empty for anything else. -/
def get_castling_squares (fromSq toSq : Nat) : List Nat :=
  if fromSq = 4 ∧ toSq = 6 then [5]
  else if fromSq = 4 ∧ toSq = 2 then [1, 3]
  else if fromSq = 60 ∧ toSq = 62 then [61]
  else if fromSq = 60 ∧ toSq = 58 then [57, 59]
  else []

/-- Castle legality check (`is_legal_castle`): the mover's king must not be
in check, the move must match one of the four castle patterns, and none of
the collected squares may be attacked by the opponent. -/
def is_legal_castle (s : bitboard_state_t) (mv : chess_move_t) : Bool :=
  let current_player := s.current_player
  let attacker := -current_player
  if is_king_in_check s current_player then false
  else
    let squares := get_castling_squares mv.fromSq mv.toSq
    if squares.length = 0 then false
    else squares.all (fun sq => ¬is_square_attacked s sq attacker)

/-- Move-kind dispatch of `chess_apply_move` (step 4): returns the mutated
position together with the pawn-or-capture flag, or `none` for an illegal
castle. -/
def apply_phase (s : bitboard_state_t) (mv : chess_move_t) :
    Option (bitboard_state_t × Bool) :=
  if mv.is_castling ≠ 0 then
    if is_legal_castle s mv then some (apply_castling s mv, false) else none
  else if mv.is_en_passant ≠ 0 then
    some (apply_en_passant s mv, true)
  else if mv.promotion ≠ 0 then
    some (handle_promotion (apply_regular_move s mv).1 mv, true)
  else
    some (apply_regular_move s mv)

/-- Final steps 6-7 of `chess_apply_move`: flip the side to move, then
reject the move when the king of the player who just moved (the negation of
the new side to move) is in check. -/
def finish_move (old_player : Int) (ns : bitboard_state_t) :
    Option bitboard_state_t :=
  let ns2 := { ns with current_player := -old_player }
  if is_king_in_check ns2 (-ns2.current_player) then none else some ns2

/-- The opposing king board read by step 2 of `chess_apply_move`. -/
def opp_king_board (s : bitboard_state_t) : Nat :=
  if s.current_player = 1 then s.black_kings else s.white_kings

/-- Move application (`chess_apply_move`): reject pinned pieces and
opposite-king captures, execute the move, update castling rights, the
en-passant square and the clocks, flip the side to move, and finally reject
the move when the mover's king is left in check. -/
def chess_apply_move (s : bitboard_state_t) (mv : chess_move_t) :
    Option bitboard_state_t :=
  if is_move_pinned s mv then none
  else if opp_king_board s &&& u64 (1 <<< mv.toSq) ≠ 0 then none
  else
    match apply_phase s mv with
    | none => none
    | some (ns, was_capture_or_pawn_move) =>
      let ns := update_castling_rights ns mv
      let ns := update_en_passant ns mv
      let ns := update_move_counters ns was_capture_or_pawn_move
      finish_move s.current_player ns

/-- Convenience constructor for a plain move record (the `add_move` call
with explicit flags). -/
def mk_move (fromSq toSq promotion is_castling is_en_passant : Nat) :
    chess_move_t :=
  { fromSq := fromSq, toSq := toSq, promotion := promotion,
    is_castling := is_castling, is_en_passant := is_en_passant }

/-- Pawn-arrival expansion shared by the pawn generators: on the promotion
rank the C code emits the four promotion moves in the order knight, bishop,
rook, queen; elsewhere one plain move. -/
def pawn_arrivals (fromSq toSq promoRank : Nat) : List chess_move_t :=
  if toSq / 8 = promoRank then
    [mk_move fromSq toSq 1 0 0, mk_move fromSq toSq 2 0 0,
     mk_move fromSq toSq 3 0 0, mk_move fromSq toSq 4 0 0]
  else [mk_move fromSq toSq 0 0 0]

/-- White pawn move generation (`generate_white_pawn_moves`): single push,
double push from rank 1, the two diagonal captures, then en passant, in the
order the C code appends them. -/
def generate_white_pawn_moves (s : bitboard_state_t) : List chess_move_t :=
  let pawns := s.white_pawns
  let occupied := compute_all_occ s
  let empty := M64 ^^^ occupied
  let black_occ := compute_black_occ s
  let single_push := u64 (pawns <<< 8) &&& empty
  let m1 := (bitsAsc single_push).flatMap (fun toSq =>
    pawn_arrivals (toSq - 8) toSq 7)
  let initial_pawns := pawns &&& 0x000000000000FF00
  let double_push := u64 ((u64 (initial_pawns <<< 8) &&& empty) <<< 8) &&& empty
  let m2 := (bitsAsc double_push).map (fun toSq => mk_move (toSq - 16) toSq 0 0 0)
  let captures_right := u64 (pawns <<< 9) &&& NOT_A_FILE &&& black_occ
  let m3 := (bitsAsc captures_right).flatMap (fun toSq =>
    pawn_arrivals (toSq - 9) toSq 7)
  let captures_left := u64 (pawns <<< 7) &&& NOT_H_FILE &&& black_occ
  let m4 := (bitsAsc captures_left).flatMap (fun toSq =>
    pawn_arrivals (toSq - 7) toSq 7)
  let m5 :=
    if s.en_passant ≠ 255 then
      let ep_bit := u64 (1 <<< s.en_passant)
      let r :=
        if u64 (pawns <<< 9) &&& ep_bit ≠ 0 ∧ (s.en_passant - 9) / 8 = 4 then
          [mk_move (s.en_passant - 9) s.en_passant 0 0 1]
        else []
      let l :=
        if u64 (pawns <<< 7) &&& ep_bit ≠ 0 ∧ (s.en_passant - 7) / 8 = 4 then
          [mk_move (s.en_passant - 7) s.en_passant 0 0 1]
        else []
      r ++ l
    else []
  m1 ++ m2 ++ m3 ++ m4 ++ m5

/-- Black pawn move generation (`generate_black_pawn_moves`), the rank
mirror of the White generator with right shifts. -/
def generate_black_pawn_moves (s : bitboard_state_t) : List chess_move_t :=
  let pawns := s.black_pawns
  let occupied := compute_all_occ s
  let empty := M64 ^^^ occupied
  let white_occ := compute_white_occ s
  let single_push := (pawns >>> 8) &&& empty
  let m1 := (bitsAsc single_push).flatMap (fun toSq =>
    pawn_arrivals (toSq + 8) toSq 0)
  let initial_pawns := pawns &&& 0x00FF000000000000
  let double_push := ((initial_pawns >>> 8) &&& empty) >>> 8 &&& empty
  let m2 := (bitsAsc double_push).map (fun toSq => mk_move (toSq + 16) toSq 0 0 0)
  let captures_right := (pawns >>> 7) &&& NOT_A_FILE &&& white_occ
  let m3 := (bitsAsc captures_right).flatMap (fun toSq =>
    pawn_arrivals (toSq + 7) toSq 0)
  let captures_left := (pawns >>> 9) &&& NOT_H_FILE &&& white_occ
  let m4 := (bitsAsc captures_left).flatMap (fun toSq =>
    pawn_arrivals (toSq + 9) toSq 0)
  let m5 :=
    if s.en_passant ≠ 255 then
      let ep_bit := u64 (1 <<< s.en_passant)
      let r :=
        if (pawns >>> 7) &&& ep_bit ≠ 0 ∧ (s.en_passant + 7) / 8 = 3 then
          [mk_move (s.en_passant + 7) s.en_passant 0 0 1]
        else []
      let l :=
        if (pawns >>> 9) &&& ep_bit ≠ 0 ∧ (s.en_passant + 9) / 8 = 3 then
          [mk_move (s.en_passant + 9) s.en_passant 0 0 1]
        else []
      r ++ l
    else []
  m1 ++ m2 ++ m3 ++ m4 ++ m5

/-- Knight destination mask shared by both knight generators: the eight
L-shaped shifts, each wrap-guarded by masking the origin bit before the
shift exactly as the C code does. -/
def knight_attacks (knight_bit : Nat) : Nat :=
  u64 ((knight_bit &&& NOT_H_FILE) <<< 17) |||
  u64 ((knight_bit &&& NOT_A_FILE) <<< 15) |||
  ((knight_bit &&& NOT_H_FILE) >>> 15) |||
  ((knight_bit &&& NOT_A_FILE) >>> 17) |||
  u64 ((knight_bit &&& NOT_GH_FILE) <<< 10) |||
  u64 ((knight_bit &&& NOT_AB_FILE) <<< 6) |||
  ((knight_bit &&& NOT_GH_FILE) >>> 6) |||
  ((knight_bit &&& NOT_AB_FILE) >>> 10)

/-- White knight move generation (`generate_white_knight_moves`). -/
def generate_white_knight_moves (s : bitboard_state_t) : List chess_move_t :=
  (bitsAsc s.white_knights).flatMap (fun fromSq =>
    let attacks := andn (knight_attacks (u64 (1 <<< fromSq))) (compute_white_occ s)
    (bitsAsc attacks).map (fun toSq => mk_move fromSq toSq 0 0 0))

/-- Black knight move generation (`generate_black_knight_moves`). -/
def generate_black_knight_moves (s : bitboard_state_t) : List chess_move_t :=
  (bitsAsc s.black_knights).flatMap (fun fromSq =>
    let attacks := andn (knight_attacks (u64 (1 <<< fromSq))) (compute_black_occ s)
    (bitsAsc attacks).map (fun toSq => mk_move fromSq toSq 0 0 0))

/-- The walking loop of `explore_ray`: step file and rank by `(dc, dr)`,
stop at the board edge, stop before an own piece, stop on (and take) an
enemy piece, and otherwise keep walking. -/
def explore_loop (own_occ opp_occ : Nat) (fromSq : Nat) (dc dr : Int) :
    Nat → Int → Int → List chess_move_t
  | 0, _, _ => []
  | fuel + 1, col, row =>
    let col := col + dc
    let row := row + dr
    if col < 0 ∨ col > 7 ∨ row < 0 ∨ row > 7 then []
    else
      let toSq := (row * 8 + col).toNat
      let to_bit := u64 (1 <<< toSq)
      if to_bit &&& own_occ ≠ 0 then []
      else if to_bit &&& opp_occ ≠ 0 then [mk_move fromSq toSq 0 0 0]
      else mk_move fromSq toSq 0 0 0 ::
        explore_loop own_occ opp_occ fromSq dc dr fuel col row

/-- Sliding-move generation (`explore_ray`): the shift is decoded to a
file/rank step; unknown shifts generate nothing.  The `block_mask` argument
is ignored, as in the C implementation. -/
def explore_ray (fromSq : Nat) (shift : Int) (block_mask : Nat)
    (own_occ opp_occ : Nat) : List chess_move_t :=
  let _ := block_mask
  let dcdr : Option (Int × Int) :=
    if shift = 1 then some (1, 0)
    else if shift = -1 then some (-1, 0)
    else if shift = 8 then some (0, 1)
    else if shift = -8 then some (0, -1)
    else if shift = 7 then some (1, 1)
    else if shift = 9 then some (-1, 1)
    else if shift = -7 then some (-1, -1)
    else if shift = -9 then some (1, -1)
    else none
  match dcdr with
  | none => []
  | some (dc, dr) =>
    explore_loop own_occ opp_occ fromSq dc dr 8
      ((fromSq % 8 : Nat) : Int) ((fromSq / 8 : Nat) : Int)

/-- White bishop move generation (`generate_white_bishop_moves`). -/
def generate_white_bishop_moves (s : bitboard_state_t) : List chess_move_t :=
  let white_occ := compute_white_occ s
  let black_occ := compute_black_occ s
  (bitsAsc s.white_bishops).flatMap (fun fromSq =>
    explore_ray fromSq 7 0x8080808080808080 white_occ black_occ ++
    explore_ray fromSq 9 0x0101010101010101 white_occ black_occ ++
    explore_ray fromSq (-9) 0x8080808080808080 white_occ black_occ ++
    explore_ray fromSq (-7) 0x0101010101010101 white_occ black_occ)

/-- Black bishop move generation (`generate_black_bishop_moves`). -/
def generate_black_bishop_moves (s : bitboard_state_t) : List chess_move_t :=
  let white_occ := compute_white_occ s
  let black_occ := compute_black_occ s
  (bitsAsc s.black_bishops).flatMap (fun fromSq =>
    explore_ray fromSq 7 0x8080808080808080 black_occ white_occ ++
    explore_ray fromSq 9 0x0101010101010101 black_occ white_occ ++
    explore_ray fromSq (-9) 0x8080808080808080 black_occ white_occ ++
    explore_ray fromSq (-7) 0x0101010101010101 black_occ white_occ)

/-- White rook move generation (`generate_white_rook_moves`). -/
def generate_white_rook_moves (s : bitboard_state_t) : List chess_move_t :=
  let white_occ := compute_white_occ s
  let black_occ := compute_black_occ s
  (bitsAsc s.white_rooks).flatMap (fun fromSq =>
    explore_ray fromSq 1 0x8080808080808080 white_occ black_occ ++
    explore_ray fromSq (-1) 0x0101010101010101 white_occ black_occ ++
    explore_ray fromSq 8 0xFF00000000000000 white_occ black_occ ++
    explore_ray fromSq (-8) 0x00000000000000FF white_occ black_occ)

/-- Black rook move generation (`generate_black_rook_moves`). -/
def generate_black_rook_moves (s : bitboard_state_t) : List chess_move_t :=
  let white_occ := compute_white_occ s
  let black_occ := compute_black_occ s
  (bitsAsc s.black_rooks).flatMap (fun fromSq =>
    explore_ray fromSq 1 0x8080808080808080 black_occ white_occ ++
    explore_ray fromSq (-1) 0x0101010101010101 black_occ white_occ ++
    explore_ray fromSq 8 0xFF00000000000000 black_occ white_occ ++
    explore_ray fromSq (-8) 0x00000000000000FF black_occ white_occ)

/-- White queen move generation (`generate_white_queen_moves`): the four
diagonals then the four orthogonals. -/
def generate_white_queen_moves (s : bitboard_state_t) : List chess_move_t :=
  let white_occ := compute_white_occ s
  let black_occ := compute_black_occ s
  (bitsAsc s.white_queens).flatMap (fun fromSq =>
    explore_ray fromSq 7 0x8080808080808080 white_occ black_occ ++
    explore_ray fromSq 9 0x0101010101010101 white_occ black_occ ++
    explore_ray fromSq (-7) 0x0101010101010101 white_occ black_occ ++
    explore_ray fromSq (-9) 0x8080808080808080 white_occ black_occ ++
    explore_ray fromSq 1 0x8080808080808080 white_occ black_occ ++
    explore_ray fromSq (-1) 0x0101010101010101 white_occ black_occ ++
    explore_ray fromSq 8 0xFF00000000000000 white_occ black_occ ++
    explore_ray fromSq (-8) 0x00000000000000FF white_occ black_occ)

/-- Black queen move generation (`generate_black_queen_moves`). -/
def generate_black_queen_moves (s : bitboard_state_t) : List chess_move_t :=
  let white_occ := compute_white_occ s
  let black_occ := compute_black_occ s
  (bitsAsc s.black_queens).flatMap (fun fromSq =>
    explore_ray fromSq 7 0x8080808080808080 black_occ white_occ ++
    explore_ray fromSq 9 0x0101010101010101 black_occ white_occ ++
    explore_ray fromSq (-7) 0x0101010101010101 black_occ white_occ ++
    explore_ray fromSq (-9) 0x8080808080808080 black_occ white_occ ++
    explore_ray fromSq 1 0x8080808080808080 black_occ white_occ ++
    explore_ray fromSq (-1) 0x0101010101010101 black_occ white_occ ++
    explore_ray fromSq 8 0xFF00000000000000 black_occ white_occ ++
    explore_ray fromSq (-8) 0x00000000000000FF black_occ white_occ)

/-- King-step moves shared by both king generators: the eight adjacent
squares, each guarded by the file/rank bounds and by own occupancy, in the
C order north, south, east, west, north-east, north-west, south-east,
south-west. -/
def king_steps (fromSq : Nat) (own_occ : Nat) : List chess_move_t :=
  let ff := fromSq % 8
  let fr := fromSq / 8
  let step (cond : Bool) (tSq : Nat) : List chess_move_t :=
    if cond ∧ u64 (1 <<< tSq) &&& own_occ = 0 then [mk_move fromSq tSq 0 0 0]
    else []
  step (fr < 7) (fromSq + 8) ++
  step (fr > 0) (fromSq - 8) ++
  step (ff < 7) (fromSq + 1) ++
  step (ff > 0) (fromSq - 1) ++
  step (fr < 7 ∧ ff < 7) (fromSq + 9) ++
  step (fr < 7 ∧ ff > 0) (fromSq + 7) ++
  step (fr > 0 ∧ ff < 7) (fromSq - 7) ++
  step (fr > 0 ∧ ff > 0) (fromSq - 9)

/-- White king move generation (`generate_white_king_moves`): the eight
steps plus the two castle emissions gated on rights and emptiness of the
squares between king and rook. -/
def generate_white_king_moves (s : bitboard_state_t) : List chess_move_t :=
  let occupied := compute_all_occ s
  let white_occ := compute_white_occ s
  (bitsAsc s.white_kings).flatMap (fun fromSq =>
    let steps := king_steps fromSq white_occ
    let castles :=
      if fromSq = 4 then
        let short :=
          if s.castling_rights &&& 0x1 ≠ 0 ∧ occupied &&& 0x60 = 0 then
            [mk_move fromSq (fromSq + 2) 0 1 0]
          else []
        let long :=
          if s.castling_rights &&& 0x2 ≠ 0 ∧ occupied &&& 0xE = 0 then
            [mk_move fromSq (fromSq - 2) 0 1 0]
          else []
        short ++ long
      else []
    steps ++ castles)

/-- Black king move generation (`generate_black_king_moves`). -/
def generate_black_king_moves (s : bitboard_state_t) : List chess_move_t :=
  let occupied := compute_all_occ s
  let black_occ := compute_black_occ s
  (bitsAsc s.black_kings).flatMap (fun fromSq =>
    let steps := king_steps fromSq black_occ
    let castles :=
      if fromSq = 60 then
        let short :=
          if s.castling_rights &&& 0x4 ≠ 0 ∧
             occupied &&& 0x6000000000000000 = 0 then
            [mk_move fromSq (fromSq + 2) 0 1 0]
          else []
        let long :=
          if s.castling_rights &&& 0x8 ≠ 0 ∧
             occupied &&& 0x0E00000000000000 = 0 then
            [mk_move fromSq (fromSq - 2) 0 1 0]
          else []
        short ++ long
      else []
    steps ++ castles)

/-- Pseudo-legal move aggregation (`chess_get_moves`): the per-piece
generators of the side to move, in the C call order pawns, knights,
bishops, rooks, queens, kings. -/
def chess_get_moves (s : bitboard_state_t) : List chess_move_t :=
  if s.current_player = 1 then
    generate_white_pawn_moves s ++ generate_white_knight_moves s ++
    generate_white_bishop_moves s ++ generate_white_rook_moves s ++
    generate_white_queen_moves s ++ generate_white_king_moves s
  else
    generate_black_pawn_moves s ++ generate_black_knight_moves s ++
    generate_black_bishop_moves s ++ generate_black_rook_moves s ++
    generate_black_queen_moves s ++ generate_black_king_moves s

/-- The standard opening position installed by `initialize_board`. -/
def initialize_board : bitboard_state_t :=
  { white_pawns := 0x000000000000FF00
    white_knights := 0x0000000000000042
    white_bishops := 0x0000000000000024
    white_rooks := 0x0000000000000081
    white_queens := 0x0000000000000008
    white_kings := 0x0000000000000010
    black_pawns := 0x00FF000000000000
    black_knights := 0x4200000000000000
    black_bishops := 0x2400000000000000
    black_rooks := 0x8100000000000000
    black_queens := 0x0800000000000000
    black_kings := 0x1000000000000000
    castling_rights := 0xF
    en_passant := 255
    halfmove_clock := 0
    fullmove_number := 1
    current_player := 1 }

/-- Deep copy of a state (`chess_copy_state` is a `memcpy` of the record). -/
def chess_copy_state (s : bitboard_state_t) : bitboard_state_t := s

/-- The Zobrist key tables of chess_hash.c.  The C tables are filled by a
time-seeded PRNG in `chess_hash_init`; the embedding abstracts over any
initialized table. -/
structure zobrist_keys_t where
  piece_keys : Nat → Nat → Nat
  castling_keys : Nat → Nat
  en_passant_keys : Nat → Nat
  side_to_move_key : Nat

/-- Zobrist hash of a state (`chess_hash_state`): XOR the piece-square key
of every set bit of the twelve boards (in the C board order), the castling
key of the low four rights bits, the en-passant key when the field is a
valid square, and the side key when Black is to move. -/
def chess_hash_state (keys : zobrist_keys_t) (s : bitboard_state_t) : Nat :=
  let piece_hash :=
    (List.range 12).foldl
      (fun h piece =>
        (bitsAsc (getBB s piece)).foldl
          (fun h2 sq => h2 ^^^ keys.piece_keys piece sq) h)
      0
  let h := piece_hash ^^^ keys.castling_keys (s.castling_rights &&& 0xF)
  let h := if s.en_passant < 64 then h ^^^ keys.en_passant_keys s.en_passant else h
  if s.current_player = -1 then h ^^^ keys.side_to_move_key else h

/-- State equality (`chess_equals_state`): field-by-field comparison of all
twelve boards and all scalar fields. -/
def chess_equals_state (a b : bitboard_state_t) : Bool :=
  decide (a.white_pawns = b.white_pawns) &&
  decide (a.white_knights = b.white_knights) &&
  decide (a.white_bishops = b.white_bishops) &&
  decide (a.white_rooks = b.white_rooks) &&
  decide (a.white_queens = b.white_queens) &&
  decide (a.white_kings = b.white_kings) &&
  decide (a.black_pawns = b.black_pawns) &&
  decide (a.black_knights = b.black_knights) &&
  decide (a.black_bishops = b.black_bishops) &&
  decide (a.black_rooks = b.black_rooks) &&
  decide (a.black_queens = b.black_queens) &&
  decide (a.black_kings = b.black_kings) &&
  decide (a.castling_rights = b.castling_rights) &&
  decide (a.en_passant = b.en_passant) &&
  decide (a.halfmove_clock = b.halfmove_clock) &&
  decide (a.fullmove_number = b.fullmove_number) &&
  decide (a.current_player = b.current_player)

/-- Node classification tags of the transposition-table entries
(minimax.c `NodeType`). -/
inductive NodeType where
  | EXACT
  | LOWER_BOUND
  | UPPER_BOUND
  deriving DecidableEq

/-- A transposition-table entry (`minimax_cache_entry_t`): search value,
depth at which it was produced, and bound tag. -/
structure minimax_cache_entry_t where
  value : Int
  depth : Nat
  type : NodeType
  deriving DecidableEq

/-!
Model of the generic chained hash table of obj_cache.c.  The C table stores
the caller's `void *value` pointer verbatim; the model keeps that pointer as
an address (`Nat`) into an external heap, so that later mutation of the
pointed-to entry is observable exactly as it is in C.  Buckets are indexed
by `hash % capacity` as in `get_bucket_index`.
-/

/-- A pointer value as stored in a `hash_entry`. -/
abbrev Addr := Nat

/-- The generic hash table (`generic_hash_table`): fixed capacity, the two
user callbacks, and the bucket array, modelled as a function from bucket
index to the chained list of (key, value-pointer) pairs. -/
structure generic_hash_table (K : Type) where
  capacity : Nat
  hash_cb : K → Nat
  eq_cb : K → K → Bool
  buckets : Nat → List (K × Addr)

/-- Fresh table with `INITIAL_CAPACITY = 1024` empty buckets
(`cache_create`). -/
def cache_create {K : Type} (hash_cb : K → Nat) (eq_cb : K → K → Bool) :
    generic_hash_table K :=
  { capacity := 1024, hash_cb := hash_cb, eq_cb := eq_cb,
    buckets := fun _ => [] }

/-- Bucket walk of `cache_lookup`: the value pointer of the first entry
whose key the equality callback accepts. -/
def bucket_lookup {K : Type} (eq_cb : K → K → Bool) (key : K) :
    List (K × Addr) → Option Addr
  | [] => none
  | (k0, v0) :: rest =>
    if eq_cb k0 key then some v0 else bucket_lookup eq_cb key rest

/-- Lookup (`cache_lookup`): hash to a bucket, walk it. -/
def cache_lookup {K : Type} (t : generic_hash_table K) (key : K) :
    Option Addr :=
  bucket_lookup t.eq_cb key (t.buckets (t.hash_cb key % t.capacity))

/-- Bucket walk of `cache_store`: replace the value pointer of the first
entry whose key matches, keeping its position; `none` when no entry
matched. -/
def bucket_replace {K : Type} (eq_cb : K → K → Bool) (key : K) (v : Addr) :
    List (K × Addr) → Option (List (K × Addr))
  | [] => none
  | (k0, v0) :: rest =>
    if eq_cb k0 key then some ((k0, v) :: rest)
    else (bucket_replace eq_cb key v rest).map ((k0, v0) :: ·)

/-- Store (`cache_store`): update the matching entry in place, or prepend a
new entry at the head of the bucket.  The key and the value pointer are
stored verbatim; nothing is copied. -/
def cache_store {K : Type} (t : generic_hash_table K) (key : K) (v : Addr) :
    generic_hash_table K :=
  let index := t.hash_cb key % t.capacity
  let bucket := t.buckets index
  let newBucket :=
    match bucket_replace t.eq_cb key v bucket with
    | some b => b
    | none => (key, v) :: bucket
  { t with buckets := fun i => if i = index then newBucket else t.buckets i }

/-!
Model of the generic alpha-beta search of minimax.c.  The game descriptor
is the capability bundle the search consumes; the dynamic move vector is a
`List`.  The transposition table attached to the search is modelled at the
value level (an association list looked up through the descriptor's state
equality), i.e. with the entry contents as seen at lookup time; the
pointer-level behaviour of the table itself is the subject of the
`generic_hash_table` model above.
-/

/-- The game descriptor (`game_descriptor_t`), restricted to the operations
`minimax_ab` consumes. -/
structure game_descriptor (S M : Type) where
  is_terminal : S → Bool
  evaluate : S → Int
  player_to_move : S → Int
  get_moves : S → List M
  apply_move : S → M → Option S

/-- The search-facing transposition table: an association list from states
to cache entries. -/
abbrev MCache (S : Type) := List (S × minimax_cache_entry_t)

/-- First entry stored for a state equal to `s`, as found by the table
walk with the state-equality callback. -/
def mcache_lookup {S : Type} [DecidableEq S] (c : MCache S) (s : S) :
    Option minimax_cache_entry_t :=
  (c.find? (fun p => p.1 = s)).map (·.2)

/-- Store an entry for `s`: overwrite the first entry with an equal key in
place, else prepend. -/
def mcache_store {S : Type} [DecidableEq S] :
    MCache S → S → minimax_cache_entry_t → MCache S
  | [], s, e => [(s, e)]
  | (k, e0) :: rest, s, e =>
    if k = s then (k, e) :: rest else (k, e0) :: mcache_store rest s e

/-- Store through the optional cache handle (a `NULL` handle stores
nothing). -/
def mcache_store_opt {S : Type} [DecidableEq S] (c : Option (MCache S))
    (s : S) (e : minimax_cache_entry_t) : Option (MCache S) :=
  c.map (fun c0 => mcache_store c0 s e)

/-- C `INT_MIN`, the initial best value of the maximizer. -/
def INT_MIN : Int := -2147483648

/-- C `INT_MAX`, the initial best value of the minimizer. -/
def INT_MAX : Int := 2147483647

/-- The move loop of `minimax_ab` (step 5): apply each move, skip
rejections, recurse through `recur`, update best value and window, and cut
off when alpha meets beta.  Returns the best value and the threaded cache. -/
def minimax_loop {S M : Type} (gd : game_descriptor S M)
    (recur : S → Int → Int → Option (MCache S) → Int × Option (MCache S))
    (player : Int) (s : S) :
    List M → Int → Int → Int → Option (MCache S) → Int × Option (MCache S)
  | [], best, _, _, cache => (best, cache)
  | mv :: rest, best, alpha, beta, cache =>
    match gd.apply_move s mv with
    | none => minimax_loop gd recur player s rest best alpha beta cache
    | some s2 =>
      let vc := recur s2 alpha beta cache
      let value := vc.1
      let cache := vc.2
      if player = 1 then
        let best := if value > best then value else best
        let alpha := if best > alpha then best else alpha
        if alpha ≥ beta then (best, cache)
        else minimax_loop gd recur player s rest best alpha beta cache
      else
        let best := if value < best then value else best
        let beta := if best < beta then best else beta
        if alpha ≥ beta then (best, cache)
        else minimax_loop gd recur player s rest best alpha beta cache

/-- One invocation body of `minimax_ab` with the recursive call abstracted
as `recur`: cache probe with the depth guard and the three bound kinds,
terminal and depth-zero evaluation, the empty-move-list evaluation, the
move loop, and the bound classification against the original window. -/
def minimax_body {S M : Type} [DecidableEq S] (gd : game_descriptor S M)
    (recur : S → Int → Int → Option (MCache S) → Int × Option (MCache S))
    (depth : Nat) (s : S) (alpha0 beta0 : Int) (cache : Option (MCache S)) :
    Int × Option (MCache S) :=
  let probe : Sum Int (Int × Int) :=
    match cache with
    | none => Sum.inr (alpha0, beta0)
    | some c =>
      match mcache_lookup c s with
      | none => Sum.inr (alpha0, beta0)
      | some e =>
        if e.depth ≥ depth then
          match e.type with
          | NodeType.EXACT => Sum.inl e.value
          | NodeType.LOWER_BOUND =>
            let alpha := if e.value > alpha0 then e.value else alpha0
            if alpha ≥ beta0 then Sum.inl e.value else Sum.inr (alpha, beta0)
          | NodeType.UPPER_BOUND =>
            let beta := if e.value < beta0 then e.value else beta0
            if alpha0 ≥ beta then Sum.inl e.value else Sum.inr (alpha0, beta)
        else Sum.inr (alpha0, beta0)
  match probe with
  | Sum.inl v => (v, cache)
  | Sum.inr (alpha, beta) =>
    if gd.is_terminal s || depth = 0 then
      let ev := gd.evaluate s
      (ev, mcache_store_opt cache s ⟨ev, depth, NodeType.EXACT⟩)
    else
      let moves := gd.get_moves s
      if moves.length = 0 then
        let ev := gd.evaluate s
        (ev, mcache_store_opt cache s ⟨ev, depth, NodeType.EXACT⟩)
      else
        let player := gd.player_to_move s
        let best0 := if player = 1 then INT_MIN else INT_MAX
        let bc := minimax_loop gd recur player s moves best0 alpha beta cache
        let best := bc.1
        let node_type :=
          if best ≤ alpha0 then NodeType.UPPER_BOUND
          else if best ≥ beta0 then NodeType.LOWER_BOUND
          else NodeType.EXACT
        (best, mcache_store_opt bc.2 s ⟨best, depth, node_type⟩)

/-- The alpha-beta search with transposition table (`minimax_ab`); the
`Option` cache is the C `cache_handle` (with `none` for `NULL`), threaded
through the recursion because the C table is mutated in place. -/
def minimax_ab {S M : Type} [DecidableEq S] (gd : game_descriptor S M) :
    Nat → S → Int → Int → Option (MCache S) → Int × Option (MCache S)
  | 0, s, alpha, beta, cache =>
    minimax_body gd (fun _ _ _ c => (0, c)) 0 s alpha beta cache
  | depth + 1, s, alpha, beta, cache =>
    minimax_body gd (minimax_ab gd depth) (depth + 1) s alpha beta cache

/-!
Bit-level helper lemmas used by the claim proofs.
-/

/-- A natural number is zero exactly when all of its bits are clear. -/
theorem nat_eq_zero_iff_testBit (n : Nat) :
    n = 0 ↔ ∀ i, n.testBit i = false := by
  constructor
  · rintro rfl i
    exact Nat.zero_testBit i
  · intro h
    exact Nat.eq_of_testBit_eq (fun i => by rw [h i, Nat.zero_testBit])

/-- A conjunction of boards is nonzero exactly when some bit is set in both. -/
theorem land_ne_zero_iff (a b : Nat) :
    a &&& b ≠ 0 ↔ ∃ i, a.testBit i = true ∧ b.testBit i = true := by
  rw [Ne, nat_eq_zero_iff_testBit]
  push_neg
  constructor
  · rintro ⟨i, hi⟩
    rw [Nat.testBit_land] at hi
    exact ⟨i, by simpa using (Bool.and_eq_true _ _).mp (by simpa using hi)⟩
  · rintro ⟨i, h1, h2⟩
    exact ⟨i, by rw [Nat.testBit_land, h1, h2]; simp⟩

/-- A disjunction of boards is zero exactly when both are zero. -/
theorem lor_eq_zero_iff (a b : Nat) : a ||| b = 0 ↔ a = 0 ∧ b = 0 := by
  simp only [nat_eq_zero_iff_testBit, Nat.testBit_lor]
  constructor
  · intro h
    exact ⟨fun i => by have := h i; cases ha : a.testBit i <;> simp_all,
           fun i => by have := h i; cases hb : b.testBit i <;> simp_all⟩
  · rintro ⟨h1, h2⟩ i
    rw [h1 i, h2 i]
    rfl

/-- Masking with a single power of two is nonzero exactly when the other
operand has that bit set. -/
theorem two_pow_land_ne_zero_iff (k a : Nat) :
    2 ^ k &&& a ≠ 0 ↔ a.testBit k = true := by
  rw [land_ne_zero_iff]
  constructor
  · rintro ⟨i, h1, h2⟩
    rcases eq_or_ne k i with rfl | hne
    · exact h2
    · rw [Nat.testBit_two_pow_of_ne hne] at h1
      exact absurd h1 (by simp)
  · intro h
    exact ⟨k, Nat.testBit_two_pow_self, h⟩

/-- Chained masking with a single power of two. -/
theorem two_pow_land_land_ne_zero_iff (k a b : Nat) :
    2 ^ k &&& a &&& b ≠ 0 ↔ a.testBit k = true ∧ b.testBit k = true := by
  rw [Nat.land_assoc, two_pow_land_ne_zero_iff, Nat.testBit_land,
    Bool.and_eq_true]

/-- Shifting one left is the corresponding power of two. -/
theorem one_shl (k : Nat) : 1 <<< k = 2 ^ k := by
  rw [Nat.shiftLeft_eq, one_mul]

/-- Truncating a power of two to 64 bits keeps it below bit 64 and kills it
at bit 64 and beyond. -/
theorem u64_two_pow (k : Nat) :
    u64 (2 ^ k) = if k < 64 then 2 ^ k else 0 := by
  unfold u64
  split
  · have h2 : (2 : Nat) ^ k < 2 ^ 64 :=
      Nat.pow_lt_pow_right (by norm_num) (by omega)
    exact Nat.mod_eq_of_lt (by norm_num at h2 ⊢; exact h2)
  · obtain ⟨c, hc⟩ := pow_dvd_pow 2 (show 64 ≤ k by omega)
    rw [show (18446744073709551616 : Nat) = 2 ^ 64 by norm_num, hc,
      Nat.mul_mod_right]

/-- Left-shifting a power of two adds to the exponent. -/
theorem two_pow_shl (k n : Nat) : 2 ^ k <<< n = 2 ^ (k + n) := by
  rw [Nat.shiftLeft_eq, pow_add]

/-- Right-shifting a power of two subtracts from the exponent, vanishing
when the shift exceeds it. -/
theorem two_pow_shr (k n : Nat) :
    2 ^ k >>> n = if n ≤ k then 2 ^ (k - n) else 0 := by
  rw [Nat.shiftRight_eq_div_pow]
  split
  · exact Nat.pow_div (by assumption) (by norm_num)
  · exact Nat.div_eq_of_lt (Nat.pow_lt_pow_right (by norm_num) (by omega))

/-- Bits of `NOT_H_FILE`: set exactly on the on-board squares off file h. -/
theorem testBit_NOT_H_FILE :
    ∀ k, k < 64 → (NOT_H_FILE.testBit k = decide (k % 8 ≠ 7)) := by decide

/-- Bits of `NOT_A_FILE`: set exactly on the on-board squares off file a. -/
theorem testBit_NOT_A_FILE :
    ∀ k, k < 64 → (NOT_A_FILE.testBit k = decide (k % 8 ≠ 0)) := by decide

/-- Masking against a zero board gives zero even through an interleaved
conjunction. -/
theorem land_land_eq_zero_left {a c : Nat} (h : a &&& c = 0) (b : Nat) :
    (a &&& b) &&& c = 0 := by
  rw [Nat.land_assoc, Nat.land_comm b c, ← Nat.land_assoc, h]
  simp [Nat.zero_and]

/-- Splitting a union on the left of a zero conjunction. -/
theorem lor_land_eq_zero_iff (a b c : Nat) :
    (a ||| b) &&& c = 0 ↔ a &&& c = 0 ∧ b &&& c = 0 := by
  simp only [nat_eq_zero_iff_testBit, Nat.testBit_land, Nat.testBit_lor]
  constructor
  · intro h
    refine ⟨fun i => ?_, fun i => ?_⟩ <;>
      · have := h i
        cases ha : a.testBit i <;> cases hb : b.testBit i <;>
          cases hc : c.testBit i <;> simp_all
  · rintro ⟨h1, h2⟩ i
    have := h1 i
    have := h2 i
    cases ha : a.testBit i <;> cases hb : b.testBit i <;>
      cases hc : c.testBit i <;> simp_all

/-- The three scalar fields the clock logic reads, shared between a state
and a modification of it. -/
def same_clocks (a b : bitboard_state_t) : Prop :=
  a.halfmove_clock = b.halfmove_clock ∧
  a.fullmove_number = b.fullmove_number ∧
  a.current_player = b.current_player

/-- Clock-field sharing is reflexive. -/
theorem same_clocks_refl (a : bitboard_state_t) : same_clocks a a :=
  ⟨rfl, rfl, rfl⟩

/-- Clock-field sharing is transitive. -/
theorem same_clocks_trans {a b c : bitboard_state_t}
    (h1 : same_clocks a b) (h2 : same_clocks b c) : same_clocks a c :=
  ⟨h1.1.trans h2.1, h1.2.1.trans h2.2.1, h1.2.2.trans h2.2.2⟩

/-- Writing a piece board leaves the clock fields unchanged. -/
theorem setBB_same_clocks (i v : Nat) (s : bitboard_state_t) :
    same_clocks (setBB i v s) s := by
  unfold setBB
  split <;> exact ⟨rfl, rfl, rfl⟩

/-- The capture scan leaves the clock fields unchanged. -/
theorem do_capture_same_clocks (w : Bool) (tm : Nat) (s : bitboard_state_t) :
    same_clocks (do_capture w tm s).1 s := by
  unfold do_capture
  dsimp only
  split <;> first
    | exact setBB_same_clocks _ _ s
    | exact same_clocks_refl s

/-- A regular move leaves the clock fields unchanged. -/
theorem apply_regular_move_same_clocks (s : bitboard_state_t)
    (m : chess_move_t) : same_clocks (apply_regular_move s m).1 s := by
  unfold apply_regular_move
  dsimp only
  cases hfind : find_mover s (u64 (1 <<< m.fromSq)) with
  | none => exact same_clocks_refl s
  | some i =>
    dsimp only
    exact same_clocks_trans (setBB_same_clocks _ _ _)
      (same_clocks_trans (do_capture_same_clocks _ _ _)
        (setBB_same_clocks _ _ _))

/-- A castle execution leaves the clock fields unchanged. -/
theorem apply_castling_same_clocks (s : bitboard_state_t)
    (m : chess_move_t) : same_clocks (apply_castling s m) s := by
  unfold apply_castling
  dsimp only
  split
  · split
    · exact ⟨rfl, rfl, rfl⟩
    · exact ⟨rfl, rfl, rfl⟩
  · split
    · split
      · exact ⟨rfl, rfl, rfl⟩
      · exact ⟨rfl, rfl, rfl⟩
    · exact ⟨rfl, rfl, rfl⟩

/-- An en-passant execution leaves the clock fields unchanged. -/
theorem apply_en_passant_same_clocks (s : bitboard_state_t)
    (m : chess_move_t) : same_clocks (apply_en_passant s m) s := by
  unfold apply_en_passant
  dsimp only
  split
  · exact same_clocks_refl s
  · split
    · exact ⟨rfl, rfl, rfl⟩
    · exact ⟨rfl, rfl, rfl⟩

/-- A promotion fix-up leaves the clock fields unchanged. -/
theorem handle_promotion_same_clocks (s : bitboard_state_t)
    (m : chess_move_t) : same_clocks (handle_promotion s m) s := by
  unfold handle_promotion
  dsimp only
  split
  · exact same_clocks_refl s
  · split <;> split <;> exact ⟨rfl, rfl, rfl⟩

/-- The move-kind dispatch leaves the clock fields unchanged on every
accepted branch. -/
theorem apply_phase_same_clocks (s : bitboard_state_t) (m : chess_move_t)
    (ns : bitboard_state_t) (flag : Bool)
    (h : apply_phase s m = some (ns, flag)) : same_clocks ns s := by
  unfold apply_phase at h
  split at h
  · split at h
    · obtain ⟨rfl, rfl⟩ := Prod.mk.injEq .. ▸ (Option.some.inj h)
      exact apply_castling_same_clocks s m
    · exact absurd h (by simp)
  · split at h
    · obtain ⟨rfl, rfl⟩ := Prod.mk.injEq .. ▸ (Option.some.inj h)
      exact apply_en_passant_same_clocks s m
    · split at h
      · obtain ⟨rfl, rfl⟩ := Prod.mk.injEq .. ▸ (Option.some.inj h)
        exact same_clocks_trans (handle_promotion_same_clocks _ m)
          (apply_regular_move_same_clocks s m)
      · have hns : ns = (apply_regular_move s m).1 := by
          have := Option.some.inj h
          exact congrArg Prod.fst this.symm
        rw [hns]
        exact apply_regular_move_same_clocks s m

/-- Halfmove clock written by `update_move_counters`. -/
theorem update_move_counters_halfmove (s : bitboard_state_t) (flag : Bool) :
    (update_move_counters s flag).halfmove_clock =
      if flag then 0 else (s.halfmove_clock + 1) % 256 := by
  unfold update_move_counters
  dsimp only
  split <;> split <;> rfl

/-- Fullmove number written by `update_move_counters`. -/
theorem update_move_counters_fullmove (s : bitboard_state_t) (flag : Bool) :
    (update_move_counters s flag).fullmove_number =
      if s.current_player = -1 then (s.fullmove_number + 1) % 256
      else s.fullmove_number := by
  unfold update_move_counters
  dsimp only
  split <;> split <;> simp_all

/-- Reading back any board after a write yields either the written value or
the original board. -/
theorem getBB_setBB_cases (i v : Nat) (s : bitboard_state_t) (j : Nat) :
    getBB (setBB i v s) j = v ∨ getBB (setBB i v s) j = getBB s j := by
  unfold setBB getBB
  split <;> (first | (split <;> simp) | simp)

/-- The capture scan reports no capture when no board holds the target
square. -/
theorem do_capture_flag_of_no_target (w : Bool) (tm : Nat)
    (s1 : bitboard_state_t) (h : ∀ j, getBB s1 j &&& tm = 0) :
    (do_capture w tm s1).2 = false := by
  unfold do_capture
  dsimp only
  split
  · rename_i j hfind
    have hp := List.find?_some hfind
    simp [h j] at hp
  · rfl

/-- A regular move that moves no pawn and lands on an empty square reports
neither a pawn move nor a capture. -/
theorem apply_regular_move_flag_false (s : bitboard_state_t)
    (m : chess_move_t)
    (hwp : s.white_pawns &&& u64 (1 <<< m.fromSq) = 0)
    (hbp : s.black_pawns &&& u64 (1 <<< m.fromSq) = 0)
    (hocc : compute_all_occ s &&& u64 (1 <<< m.toSq) = 0) :
    (apply_regular_move s m).2 = false := by
  have hocc' := hocc
  rw [compute_all_occ] at hocc'
  obtain ⟨hw, hb⟩ := (lor_land_eq_zero_iff _ _ _).mp hocc'
  rw [compute_white_occ] at hw
  rw [compute_black_occ] at hb
  obtain ⟨hw, hwk⟩ := (lor_land_eq_zero_iff _ _ _).mp hw
  obtain ⟨hw, hwq⟩ := (lor_land_eq_zero_iff _ _ _).mp hw
  obtain ⟨hw, hwr⟩ := (lor_land_eq_zero_iff _ _ _).mp hw
  obtain ⟨hw, hwb⟩ := (lor_land_eq_zero_iff _ _ _).mp hw
  obtain ⟨hwp2, hwn⟩ := (lor_land_eq_zero_iff _ _ _).mp hw
  obtain ⟨hb, hbk⟩ := (lor_land_eq_zero_iff _ _ _).mp hb
  obtain ⟨hb, hbq⟩ := (lor_land_eq_zero_iff _ _ _).mp hb
  obtain ⟨hb, hbr⟩ := (lor_land_eq_zero_iff _ _ _).mp hb
  obtain ⟨hb, hbb⟩ := (lor_land_eq_zero_iff _ _ _).mp hb
  obtain ⟨hbp2, hbn⟩ := (lor_land_eq_zero_iff _ _ _).mp hb
  have hall : ∀ j, getBB s j &&& u64 (1 <<< m.toSq) = 0 := by
    intro j
    unfold getBB
    split
    · exact hwp2
    · exact hwn
    · exact hwb
    · exact hwr
    · exact hwq
    · exact hwk
    · exact hbp2
    · exact hbn
    · exact hbb
    · exact hbr
    · exact hbq
    · exact hbk
    · exact Nat.zero_and _
  unfold apply_regular_move
  dsimp only
  cases hfind : find_mover s (u64 (1 <<< m.fromSq)) with
  | none => rfl
  | some i =>
    dsimp only
    have hpred : getBB s i &&& u64 (1 <<< m.fromSq) ≠ 0 := by
      have := List.find?_some hfind
      simpa using this
    have hi0 : i ≠ 0 := by
      rintro rfl
      exact hpred (by simpa [getBB] using hwp)
    have hi6 : i ≠ 6 := by
      rintro rfl
      exact hpred (by simpa [getBB] using hbp)
    have hcap :
        (do_capture (decide (i < 6)) (u64 (1 <<< m.toSq))
          (setBB i (andn (getBB s i) (u64 (1 <<< m.fromSq))) s)).2 = false := by
      refine do_capture_flag_of_no_target _ _ _ (fun j => ?_)
      rcases getBB_setBB_cases i (andn (getBB s i) (u64 (1 <<< m.fromSq))) s j
        with hc | hc
      · rw [hc]
        exact land_land_eq_zero_left (hall i) _
      · rw [hc]
        exact hall j
    simp [hi0, hi6, hcap]

/-- A state accepted by `finish_move` leaves the old player's king out of
check: the guard tests exactly that king after the side flip. -/
theorem finish_move_no_check (old_player : Int) (ns p' : bitboard_state_t)
    (h : finish_move old_player ns = some p') :
    is_king_in_check p' old_player = false := by
  unfold finish_move at h
  dsimp only at h
  split at h
  · exact absurd h (by simp)
  · rename_i hguard
    obtain rfl := Option.some.inj h
    simpa [Int.neg_neg] using eq_false_of_ne_true hguard

/-!
Concrete inputs used by the individual claims.
-/

/-- A bare board with no pieces, used as the base of the literal test
positions below. -/
def empty_board : bitboard_state_t :=
  { white_pawns := 0, white_knights := 0, white_bishops := 0,
    white_rooks := 0, white_queens := 0, white_kings := 0,
    black_pawns := 0, black_knights := 0, black_bishops := 0,
    black_rooks := 0, black_queens := 0, black_kings := 0,
    castling_rights := 0, en_passant := 255, halfmove_clock := 0,
    fullmove_number := 1, current_player := 1 }

/-- The double push of the e-pawn from the opening position, e2 (12) to
e4 (28). -/
def c1_move : chess_move_t := mk_move 12 28 0 0 0

/-- Kings and rooks on their home squares with full castling rights, White
to move; used for the castling-rights claim. -/
def c2_board : bitboard_state_t :=
  { empty_board with
    white_rooks := 0x0000000000000081, white_kings := 0x0000000000000010,
    black_rooks := 0x8100000000000000, black_kings := 0x1000000000000000,
    castling_rights := 0xF }

/-- The king step e1 (4) to d1 (3). -/
def c2_move : chess_move_t := mk_move 4 3 0 0 0

/-- White king e1 and rook a1 with the queenside right, Black king e8 and a
Black rook on b8 attacking b1 down the open b-file; used for the castling
legality claim. -/
def c4_board : bitboard_state_t :=
  { empty_board with
    white_rooks := 0x0000000000000001, white_kings := 0x0000000000000010,
    black_rooks := 0x0200000000000000, black_kings := 0x1000000000000000,
    castling_rights := 0x2 }

/-- The White queenside castle e1 (4) to c1 (2). -/
def c4_move : chess_move_t := mk_move 4 2 0 1 0

/-- The knight development b1 (1) to c3 (18), a legal quiet move from the
opening position; used to witness the post-move legality claim. -/
def c5_move : chess_move_t := mk_move 1 18 0 0 0

/-!
Claim theorems.
-/

/-- C1, failing-input evaluation: the claim (and the spec, and the comment
on `update_en_passant`) say a pawn double push sets `en_passant` to the
skipped square, here e3 = 20; but `chess_apply_move` runs
`update_en_passant` after the board mutation, so the pawn is no longer on
`from` and the accepted double push e2-e4 leaves `en_passant` at the
sentinel 255. -/
theorem C1_double_push_leaves_en_passant_clear :
    (chess_apply_move initialize_board c1_move).map (fun s => s.en_passant) =
        some 255 ∧
    (chess_apply_move initialize_board c1_move).map (fun s => s.en_passant) ≠
        some 20 := by
  constructor
  · rfl
  · decide

/-- C2, failing-input evaluation: the claim (and the spec, and the comment
on `update_castling_rights`) say a king move clears both of the mover's
castling-right bits, so after the accepted White king step e1-d1 the rights
0xF should become 0xC; but `update_castling_rights` runs after the board
mutation, finds no king on `from`, and leaves the rights at 0xF. -/
theorem C2_king_move_keeps_castling_rights :
    (chess_apply_move c2_board c2_move).map (fun s => s.castling_rights) =
        some 15 ∧
    (chess_apply_move c2_board c2_move).map (fun s => s.castling_rights) ≠
        some 12 := by
  constructor
  · rfl
  · decide

/-- C4, failing-input evaluation: on `c4_board` the generator emits the
queenside castle; the mover's king is not in check and neither of the
squares the king passes through (d1 = 3, c1 = 2) is attacked, so by the
claim the castle must be applied; but only b1 (the square crossed by the
rook alone) is attacked, `is_legal_castle` scans b1, and the move is
rejected. -/
theorem C4_queenside_castle_rejected_on_rook_square :
    c4_move ∈ chess_get_moves c4_board ∧
    is_king_in_check c4_board 1 = false ∧
    is_square_attacked c4_board 3 (-1) = false ∧
    is_square_attacked c4_board 2 (-1) = false ∧
    is_square_attacked c4_board 1 (-1) = true ∧
    chess_apply_move c4_board c4_move = none := by
  refine ⟨by decide, by rfl, by rfl, by rfl, by rfl, by rfl⟩

/-- C9: the move generator applied to the standard opening position
produces exactly 20 pseudo-legal moves. -/
theorem C9_initial_position_twenty_moves :
    (chess_get_moves initialize_board).length = 20 := by rfl

/-- C5: whenever `chess_apply_move` accepts a move (returns a new position
rather than the rejection sentinel), the mover's king is not in check in
the resulting position — the final guard of `chess_apply_move` tests
exactly this and rejects otherwise. -/
theorem C5_accepted_move_leaves_mover_safe (p : bitboard_state_t)
    (m : chess_move_t) (p' : bitboard_state_t)
    (h : chess_apply_move p m = some p') :
    is_king_in_check p' p.current_player = false := by
  unfold chess_apply_move at h
  split at h
  · exact absurd h (by simp)
  · split at h
    · exact absurd h (by simp)
    · split at h
      · exact absurd h (by simp)
      · exact finish_move_no_check p.current_player _ p' h

/-- Witness for C5 at a concrete accepted move: the knight development
b1-c3 from the opening position. -/
theorem C5_accepted_move_leaves_mover_safe_witness :
    is_king_in_check
      ((chess_apply_move initialize_board c5_move).getD initialize_board)
      initialize_board.current_player = false :=
  C5_accepted_move_leaves_mover_safe initialize_board c5_move
    ((chess_apply_move initialize_board c5_move).getD initialize_board)
    (by rfl)

/-- C10: the clocks are unsigned 8-bit fields, so their updates wrap modulo
256.  For every accepted move, if the mover was Black the new fullmove
number is the old one plus one modulo 256; and for every accepted move that
is neither a pawn move nor a capture (no pawn on the origin, no en-passant
or promotion tag, destination square empty) the new halfmove clock is the
old one plus one modulo 256. -/
theorem C10_clock_updates_wrap_mod_256 (p : bitboard_state_t)
    (m : chess_move_t) (p' : bitboard_state_t)
    (h : chess_apply_move p m = some p') :
    (p.current_player = -1 →
      p'.fullmove_number = (p.fullmove_number + 1) % 256) ∧
    (m.is_en_passant = 0 → m.promotion = 0 →
      p.white_pawns &&& u64 (1 <<< m.fromSq) = 0 →
      p.black_pawns &&& u64 (1 <<< m.fromSq) = 0 →
      compute_all_occ p &&& u64 (1 <<< m.toSq) = 0 →
      p'.halfmove_clock = (p.halfmove_clock + 1) % 256) := by
  unfold chess_apply_move at h
  split at h
  · exact absurd h (by simp)
  · split at h
    · exact absurd h (by simp)
    · cases hap : apply_phase p m with
      | none =>
        rw [hap] at h
        exact absurd h (by simp)
      | some nsf =>
        rw [hap] at h
        obtain ⟨ns, flag⟩ := nsf
        dsimp only at h
        unfold finish_move at h
        dsimp only at h
        split at h
        · exact absurd h (by simp)
        · obtain rfl := Option.some.inj h
          have hsc : same_clocks ns p := apply_phase_same_clocks p m ns flag hap
          constructor
          · intro hblack
            show (update_move_counters
              (update_en_passant (update_castling_rights ns m) m)
              flag).fullmove_number = (p.fullmove_number + 1) % 256
            rw [update_move_counters_fullmove]
            have hcp : (update_en_passant (update_castling_rights ns m) m).current_player
                = p.current_player := hsc.2.2
            have hfm : (update_en_passant (update_castling_rights ns m) m).fullmove_number
                = p.fullmove_number := hsc.2.1
            rw [if_pos (by rw [hcp]; exact hblack), hfm]
          · intro hep hpromo hwp hbp hocc
            have hflag : flag = false := by
              unfold apply_phase at hap
              split at hap
              · split at hap
                · simp only [Option.some.injEq, Prod.mk.injEq] at hap
                  exact hap.2.symm
                · exact absurd hap (by simp)
              · split at hap
                · rename_i hc hepflag
                  exact absurd hep hepflag
                · split at hap
                  · rename_i hc hepflag hpromoflag
                    exact absurd hpromo hpromoflag
                  · simp only [Option.some.injEq] at hap
                    have : flag = (apply_regular_move p m).2 :=
                      (congrArg Prod.snd hap).symm
                    rw [this]
                    exact apply_regular_move_flag_false p m hwp hbp hocc
            show (update_move_counters
              (update_en_passant (update_castling_rights ns m) m)
              flag).halfmove_clock = (p.halfmove_clock + 1) % 256
            rw [update_move_counters_halfmove, hflag]
            have hhm : (update_en_passant (update_castling_rights ns m) m).halfmove_clock
                = p.halfmove_clock := hsc.1
            simp [hhm]

/-- Witness for C10 at a concrete accepted quiet Black move: the king step
e8-d8 on a board holding only kings and rooks. -/
theorem C10_clock_updates_wrap_mod_256_witness :
    ((chess_apply_move { c2_board with current_player := -1 }
        (mk_move 60 59 0 0 0)).getD c2_board).fullmove_number = 2 ∧
    ((chess_apply_move { c2_board with current_player := -1 }
        (mk_move 60 59 0 0 0)).getD c2_board).halfmove_clock = 1 := by
  have h :=
    C10_clock_updates_wrap_mod_256 { c2_board with current_player := -1 }
      (mk_move 60 59 0 0 0)
      ((chess_apply_move { c2_board with current_player := -1 }
        (mk_move 60 59 0 0 0)).getD c2_board) (by rfl)
  rw [h.1 (by rfl), h.2 (by rfl) (by rfl) (by rfl) (by rfl) (by rfl)]
  exact ⟨rfl, rfl⟩

/-- Trivial Zobrist key table used to witness the hashing claim. -/
def zero_keys : zobrist_keys_t :=
  { piece_keys := fun _ _ => 0, castling_keys := fun _ => 0,
    en_passant_keys := fun _ => 0, side_to_move_key := 0 }

/-- C8: states the field-by-field equality test accepts hash identically
(for every key table), and copying a state preserves its hash. -/
theorem C8_equal_states_hash_equal :
    (∀ (keys : zobrist_keys_t) (p q : bitboard_state_t),
      chess_equals_state p q = true →
      chess_hash_state keys p = chess_hash_state keys q) ∧
    (∀ (keys : zobrist_keys_t) (p : bitboard_state_t),
      chess_hash_state keys (chess_copy_state p) = chess_hash_state keys p) := by
  constructor
  · intro keys p q h
    have hpq : p = q := by
      cases p
      cases q
      simp only [chess_equals_state, Bool.and_eq_true, decide_eq_true_eq] at h
      simp_all
    rw [hpq]
  · intro keys p
    rfl

/-- Witness for C8 at the opening position with the all-zero key table. -/
theorem C8_equal_states_hash_equal_witness :
    chess_hash_state zero_keys initialize_board =
      chess_hash_state zero_keys initialize_board :=
  C8_equal_states_hash_equal.1 zero_keys initialize_board initialize_board
    (by decide)

/-- A two-armed conditional of this shape is true exactly when one of the
conditions holds. -/
theorem ite_ite_true_iff (c1 c2 : Prop) [Decidable c1] [Decidable c2] :
    ((if c1 then true else if c2 then true else false) = true) ↔ (c1 ∨ c2) := by
  by_cases h1 : c1 <;> by_cases h2 : c2 <;> simp [h1, h2]

/-- Nonzero test of a guarded single-bit mask conjoined with a pawn board
and a file mask whose bit at `k` is characterised by `k % 8 ≠ r`. -/
theorem cond_pow_land_mask_ne_zero (c : Prop) [Decidable c]
    (k pawns notf r : Nat)
    (hk : c → notf.testBit k = decide (k % 8 ≠ r)) :
    ((if c then 2 ^ k else 0) &&& pawns &&& notf ≠ 0) ↔
      (c ∧ pawns.testBit k = true ∧ k % 8 ≠ r) := by
  split
  · rename_i hc
    rw [two_pow_land_land_ne_zero_iff, hk hc]
    simp [hc]
  · rename_i hc
    simp [Nat.zero_and, hc]

/-- The only White pawn stands on e4 (square 28); used to refute the pawn
attack claim. -/
def c3_board : bitboard_state_t :=
  { empty_board with white_pawns := 1 <<< 28 }

/-- C3, counterexample: on `c3_board` the square d5 (35) satisfies the
claim's condition for a White pawn attack — square 35 - 7 = 28 holds a
White pawn and 35 is not on the a-file — yet `is_attacked_by_pawn` answers
false, because the code tests squares 35 + 7 and 35 + 9 instead. -/
theorem C3_pawn_attack_counterexample :
    c3_board.white_pawns.testBit (35 - 7) = true ∧ (35 : Nat) % 8 ≠ 0 ∧
    is_attacked_by_pawn c3_board 35 1 = false := by decide

/-- C3, amended: what `is_attacked_by_pawn` actually computes.  With White
as attacker it answers true exactly when a White pawn stands on `sq + 7`
off the h-file or on `sq + 9` off the a-file (the squares diagonally above
`sq`); with Black as attacker, exactly when a Black pawn stands on `sq - 7`
off the a-file or on `sq - 9` off the h-file. -/
theorem C3_pawn_attack_amended (p : bitboard_state_t) (sq : Nat)
    (hsq : sq < 64) :
    (is_attacked_by_pawn p sq 1 = true ↔
      ((sq + 7 < 64 ∧ p.white_pawns.testBit (sq + 7) = true ∧
          (sq + 7) % 8 ≠ 7) ∨
       (sq + 9 < 64 ∧ p.white_pawns.testBit (sq + 9) = true ∧
          (sq + 9) % 8 ≠ 0))) ∧
    (is_attacked_by_pawn p sq (-1) = true ↔
      ((7 ≤ sq ∧ p.black_pawns.testBit (sq - 7) = true ∧ (sq - 7) % 8 ≠ 0) ∨
       (9 ≤ sq ∧ p.black_pawns.testBit (sq - 9) = true ∧
          (sq - 9) % 8 ≠ 7))) := by
  have hm : u64 (1 <<< sq) = 2 ^ sq := by
    rw [one_shl, u64_two_pow, if_pos hsq]
  constructor
  · have h7 : u64 (u64 (1 <<< sq) <<< 7) = if sq + 7 < 64 then 2 ^ (sq + 7) else 0 := by
      rw [hm, two_pow_shl, u64_two_pow]
    have h9 : u64 (u64 (1 <<< sq) <<< 9) = if sq + 9 < 64 then 2 ^ (sq + 9) else 0 := by
      rw [hm, two_pow_shl, u64_two_pow]
    unfold is_attacked_by_pawn
    dsimp only
    simp only [reduceIte]
    rw [ite_ite_true_iff, h7, h9,
      cond_pow_land_mask_ne_zero _ _ _ _ 7
        (fun hc => testBit_NOT_H_FILE (sq + 7) hc),
      cond_pow_land_mask_ne_zero _ _ _ _ 0
        (fun hc => testBit_NOT_A_FILE (sq + 9) hc)]
  · have h7 : u64 (1 <<< sq) >>> 7 = if 7 ≤ sq then 2 ^ (sq - 7) else 0 := by
      rw [hm, two_pow_shr]
    have h9 : u64 (1 <<< sq) >>> 9 = if 9 ≤ sq then 2 ^ (sq - 9) else 0 := by
      rw [hm, two_pow_shr]
    unfold is_attacked_by_pawn
    dsimp only
    simp only [show ((-1 : Int) = 1) ↔ False by simp, if_false]
    rw [ite_ite_true_iff, h7, h9,
      cond_pow_land_mask_ne_zero _ _ _ _ 0
        (fun _ => testBit_NOT_A_FILE (sq - 7) (by omega)),
      cond_pow_land_mask_ne_zero _ _ _ _ 7
        (fun _ => testBit_NOT_H_FILE (sq - 9) (by omega))]

/-- Witness for C3's amended statement: on `c3_board` the square f3 (21)
has the pawn on 21 + 7 = 28, so the predicate answers true. -/
theorem C3_pawn_attack_amended_witness :
    is_attacked_by_pawn c3_board 21 1 = true :=
  ((C3_pawn_attack_amended c3_board 21 (by decide)).1).mpr
    (Or.inl ⟨by decide, by decide, by decide⟩)

/-- Walking a bucket after the store of (key, a) finds `a` first, whether
the store replaced an existing matching entry or prepended a new one. -/
theorem bucket_lookup_after_store {K : Type} (eq_cb : K → K → Bool) (k : K)
    (a : Addr) (h : eq_cb k k = true) (l : List (K × Addr)) :
    bucket_lookup eq_cb k
      (match bucket_replace eq_cb k a l with
       | some b => b
       | none => (k, a) :: l) = some a := by
  induction l with
  | nil => simp [bucket_replace, bucket_lookup, h]
  | cons hd tl ih =>
    obtain ⟨k0, v0⟩ := hd
    by_cases he : eq_cb k0 k = true
    · simp [bucket_replace, he, bucket_lookup]
    · cases hrec : bucket_replace eq_cb k a tl with
      | some b =>
        rw [hrec] at ih
        simp only [bucket_replace, he, hrec, if_false, Option.map_some]
        simp only [bucket_lookup, he, if_false]
        exact ih
      | none =>
        simp only [bucket_replace, he, hrec, if_false, Option.map_none]
        simp [bucket_lookup, h]

/-- The table of the transposition-table claims: identity hash and
builtin equality over natural-number keys. -/
def c7_table : generic_hash_table Nat :=
  cache_create id (fun a b => a == b)

/-- Heap contents at the time `cache_store` runs: the caller's entry object
at address 0 holds value 1. -/
def c7_heap0 : Addr → minimax_cache_entry_t :=
  fun _ => { value := 1, depth := 1, type := NodeType.EXACT }

/-- Heap contents after the caller mutates its entry object: address 0 now
holds value 2. -/
def c7_heap1 : Addr → minimax_cache_entry_t :=
  fun _ => { value := 2, depth := 1, type := NodeType.EXACT }

/-- C7, counterexample: `cache_store` keeps the caller's value pointer
verbatim (`new_entry->value = value`), copying nothing, so after the caller
mutates the entry object a later `cache_lookup` observes the mutated
contents {2, 1, EXACT}, not the stored-time contents {1, 1, EXACT} — the
claim that the table holds its own insertion-time copy is false. -/
theorem C7_cache_store_counterexample :
    (cache_lookup (cache_store c7_table 5 0) 5).map c7_heap1 ≠
        some (c7_heap0 0) ∧
    (cache_lookup (cache_store c7_table 5 0) 5).map c7_heap1 =
        some { value := 2, depth := 1, type := NodeType.EXACT } ∧
    (cache_lookup (cache_store c7_table 5 0) 5).map c7_heap0 =
        some { value := 1, depth := 1, type := NodeType.EXACT } := by
  decide

/-- C7, amended: the table stores the caller's pointers verbatim; after
`cache_store t k a` a lookup for `k` returns exactly the address `a`, so
the entry observed through any later heap is whatever the caller's object
holds at that time — mutations after the store are visible. -/
theorem C7_cache_store_amended {K : Type} (t : generic_hash_table K)
    (k : K) (a : Addr) (h : t.eq_cb k k = true) :
    cache_lookup (cache_store t k a) k = some a ∧
    ∀ heap : Addr → minimax_cache_entry_t,
      (cache_lookup (cache_store t k a) k).map heap = some (heap a) := by
  have hmain : cache_lookup (cache_store t k a) k = some a := by
    unfold cache_lookup cache_store
    dsimp only
    rw [if_pos rfl]
    exact bucket_lookup_after_store t.eq_cb k a h _
  exact ⟨hmain, fun heap => by rw [hmain]; rfl⟩

/-- Witness for C7's amended statement on the concrete table. -/
theorem C7_cache_store_amended_witness :
    cache_lookup (cache_store c7_table 5 0) 5 = some 0 :=
  (C7_cache_store_amended c7_table 5 0 (by decide)).1

/-- Invariant of the caches produced by depth-zero searches: every entry is
EXACT and carries the static evaluation of its key. -/
def cache_exact_inv {S M : Type} (gd : game_descriptor S M)
    (c : MCache S) : Prop :=
  ∀ p ∈ c, p.2.type = NodeType.EXACT ∧ p.2.value = gd.evaluate p.1

/-- Storing an EXACT evaluation entry preserves the invariant. -/
theorem mcache_store_exact_inv {S M : Type} [DecidableEq S]
    (gd : game_descriptor S M) (c : MCache S) (s : S) (d : Nat)
    (h : cache_exact_inv gd c) :
    cache_exact_inv gd
      (mcache_store c s ⟨gd.evaluate s, d, NodeType.EXACT⟩) := by
  induction c with
  | nil =>
    intro p hp
    simp only [mcache_store, List.mem_singleton] at hp
    subst hp
    exact ⟨rfl, rfl⟩
  | cons hd tl ih =>
    obtain ⟨k, e0⟩ := hd
    intro p hp
    by_cases hk : k = s
    · simp only [mcache_store, hk, if_true, List.mem_cons] at hp
      rcases hp with rfl | hp
      · exact ⟨rfl, rfl⟩
      · exact h p (List.mem_cons_of_mem _ hp)
    · simp only [mcache_store, hk, if_false, List.mem_cons] at hp
      rcases hp with rfl | hp
      · exact h _ (List.mem_cons_self _ _)
      · exact ih (fun q hq => h q (List.mem_cons_of_mem _ hq)) p hp

/-- A hit on an invariant cache is an EXACT entry holding the evaluation
of the looked-up state. -/
theorem mcache_lookup_exact_inv {S M : Type} [DecidableEq S]
    (gd : game_descriptor S M) (c : MCache S) (s : S)
    (e : minimax_cache_entry_t) (h : cache_exact_inv gd c)
    (hl : mcache_lookup c s = some e) :
    e.type = NodeType.EXACT ∧ e.value = gd.evaluate s := by
  unfold mcache_lookup at hl
  cases hf : c.find? (fun p => p.1 = s) with
  | none => rw [hf] at hl; exact absurd hl (by simp)
  | some pr =>
    rw [hf] at hl
    simp at hl
    have hpred := List.find?_some hf
    have hmem := List.mem_of_find?_eq_some hf
    have hkey : pr.1 = s := by simpa using hpred
    obtain ⟨ht, hv⟩ := h pr hmem
    subst hl
    exact ⟨ht, by rw [hv, hkey]⟩

/-- A depth-zero search without a table returns the static evaluation and
no table. -/
theorem minimax_depth0_none_eq {S M : Type} [DecidableEq S]
    (gd : game_descriptor S M) (s : S) (a b : Int) :
    minimax_ab gd 0 s a b none = (gd.evaluate s, none) := by
  simp [minimax_ab, minimax_body, mcache_store_opt]

/-- A depth-zero search over a table satisfying the invariant returns the
static evaluation and a table still satisfying the invariant. -/
theorem minimax_depth0_cache_eq {S M : Type} [DecidableEq S]
    (gd : game_descriptor S M) (s : S) (a b : Int) (c : MCache S)
    (hinv : cache_exact_inv gd c) :
    ∃ c', minimax_ab gd 0 s a b (some c) = (gd.evaluate s, some c') ∧
      cache_exact_inv gd c' := by
  unfold minimax_ab minimax_body
  dsimp only
  cases hl : mcache_lookup c s with
  | none =>
    refine ⟨mcache_store c s ⟨gd.evaluate s, 0, NodeType.EXACT⟩, ?_,
      mcache_store_exact_inv gd c s 0 hinv⟩
    simp [mcache_store_opt]
  | some e =>
    obtain ⟨ht, hv⟩ := mcache_lookup_exact_inv gd c s e hinv hl
    refine ⟨c, ?_, hinv⟩
    dsimp only
    rw [if_pos (show e.depth ≥ 0 from Nat.zero_le _), ht]
    dsimp only
    rw [hv]

/-- The move loop over depth-zero recursions returns the same best value
with an invariant table as with no table: every child recursion returns
the child's static evaluation either way. -/
theorem minimax_loop_depth0_equiv {S M : Type} [DecidableEq S]
    (gd : game_descriptor S M) (player : Int) (s : S) :
    ∀ (ms : List M) (best a b : Int) (c : MCache S),
      cache_exact_inv gd c →
      (minimax_loop gd (minimax_ab gd 0) player s ms best a b (some c)).1 =
      (minimax_loop gd (minimax_ab gd 0) player s ms best a b none).1 := by
  intro ms
  induction ms with
  | nil => intro best a b c hinv; rfl
  | cons mv rest ih =>
    intro best a b c hinv
    simp only [minimax_loop]
    cases happ : gd.apply_move s mv with
    | none => exact ih best a b c hinv
    | some s2 =>
      dsimp only
      obtain ⟨c', heq, hinv'⟩ := minimax_depth0_cache_eq gd s2 a b c hinv
      rw [heq, minimax_depth0_none_eq]
      dsimp only
      split_ifs <;> first
        | rfl
        | exact ih _ _ _ c' hinv'

/-- C6, counterexample game: four states 0..3 where state 1 is reachable
both as a direct child of the root (searched at remaining depth 1) and as
a grandchild (searched at depth 0).  State 3 evaluates to 10, everything
else to 0; the root is a minimizer, the rest maximizers. -/
def c6_game : game_descriptor Nat Nat :=
  { is_terminal := fun _ => false
    evaluate := fun s => if s = 3 then 10 else 0
    player_to_move := fun s => if s = 0 then -1 else 1
    get_moves := fun s =>
      if s = 0 then [1, 2] else if s = 1 then [3] else if s = 2 then [1]
      else []
    apply_move := fun _ m => some m }

/-- C6, counterexample: at depth 2 from state 0 the search with an
initially empty transposition table returns 10, the search with no table
returns 0 — the depth-1 EXACT entry stored for state 1 is replayed when
state 1 is reached again at depth 0, changing the value of the second
subtree. -/
theorem C6_search_value_counterexample :
    (minimax_ab c6_game 2 0 INT_MIN INT_MAX (some [])).1 ≠
        (minimax_ab c6_game 2 0 INT_MIN INT_MAX none).1 ∧
    (minimax_ab c6_game 2 0 INT_MIN INT_MAX (some [])).1 = 10 ∧
    (minimax_ab c6_game 2 0 INT_MIN INT_MAX none).1 = 0 := by
  refine ⟨?_, by rfl, by rfl⟩
  decide

/-- C6, amended: the two searches agree at depth 0 and depth 1 (up to
depth 1 every cache entry consulted is an EXACT depth-0 evaluation of an
equal state, so replaying it cannot change a value); from depth 2 onward a
transposition reached at different remaining depths can change the
returned value, as the counterexample shows. -/
theorem C6_search_value_amended {S M : Type} [DecidableEq S]
    (gd : game_descriptor S M) (s : S) (d : Nat) (hd : d ≤ 1) :
    (minimax_ab gd d s INT_MIN INT_MAX (some [])).1 =
    (minimax_ab gd d s INT_MIN INT_MAX none).1 := by
  have hinv0 : cache_exact_inv gd ([] : MCache S) := by
    intro p hp
    exact absurd hp (by simp)
  match d, hd with
  | 0, _ =>
    obtain ⟨c', heq, _⟩ :=
      minimax_depth0_cache_eq gd s INT_MIN INT_MAX [] hinv0
    rw [heq, minimax_depth0_none_eq]
  | 1, _ =>
    show (minimax_body gd (minimax_ab gd 0) 1 s INT_MIN INT_MAX
        (some [])).1 =
      (minimax_body gd (minimax_ab gd 0) 1 s INT_MIN INT_MAX none).1
    unfold minimax_body
    dsimp only
    have hl : mcache_lookup ([] : MCache S) s = none := rfl
    rw [hl]
    dsimp only
    split
    · rfl
    · split
      · rfl
      · exact minimax_loop_depth0_equiv gd (gd.player_to_move s) s
          (gd.get_moves s) _ INT_MIN INT_MAX [] hinv0

/-- Witness for C6's amended statement at depth 1 of the counterexample
game. -/
theorem C6_search_value_amended_witness :
    (minimax_ab c6_game 1 0 INT_MIN INT_MAX (some [])).1 =
    (minimax_ab c6_game 1 0 INT_MIN INT_MAX none).1 :=
  C6_search_value_amended c6_game 0 1 (by decide)

end Chess
